import Mathlib

/-!
Verification of the fiochat tool-call authorization gate and MCP
capability layer: a shallow embedding of `src/function/permission.rs`,
`src/mcp/client.rs`, `src/mcp/convert.rs` and `src/mcp/mod.rs`, with
theorems settling the frozen behavioral claims.
-/

namespace Fiochat

/-! ### JSON values (serde_json::Value, modeled as a closed algebraic type).
Objects are ordered association lists, matching the iteration order the
Rust code relies on. Numbers are modeled as integers; no claim depends on
numeric arithmetic. -/

inductive JValue where
  | null : JValue
  | bool : Bool → JValue
  | num : Int → JValue
  | str : String → JValue
  | arr : List JValue → JValue
  | obj : List (String × JValue) → JValue

/-- Value::get(key) on an object; None on any non-object (serde_json). -/
def jGet (v : JValue) (key : String) : Option JValue :=
  match v with
  | JValue.obj fields => (fields.find? (fun kv => kv.1 == key)).map (fun kv => kv.2)
  | _ => none

/-- Value::as_str. -/
def jAsStr : JValue → Option String
  | JValue.str s => some s
  | _ => none

/-- Value::as_array. -/
def jAsArr : JValue → Option (List JValue)
  | JValue.arr l => some l
  | _ => none

/-- Value::as_object (fields in order). -/
def jAsObj : JValue → Option (List (String × JValue))
  | JValue.obj fs => some fs
  | _ => none

/-! ### The internal function-parameter schema (struct JsonSchema, from its
use in `src/mcp/convert.rs`: fields type_value, description, properties
(IndexMap, insertion ordered: a list), items (boxed), any_of, enum_value,
default, required). -/

inductive JsonSchema where
  | mk :
    (type_value : Option String) →
    (description : Option String) →
    (properties : Option (List (String × JsonSchema))) →
    (items : Option JsonSchema) →
    (any_of : Option (List JsonSchema)) →
    (enum_value : Option (List String)) →
    (default : Option JValue) →
    (required : Option (List String)) →
    JsonSchema

def JsonSchema.type_value : JsonSchema → Option String
  | JsonSchema.mk t _ _ _ _ _ _ _ => t

def JsonSchema.description : JsonSchema → Option String
  | JsonSchema.mk _ d _ _ _ _ _ _ => d

def JsonSchema.properties : JsonSchema → Option (List (String × JsonSchema))
  | JsonSchema.mk _ _ p _ _ _ _ _ => p

def JsonSchema.items : JsonSchema → Option JsonSchema
  | JsonSchema.mk _ _ _ i _ _ _ _ => i

def JsonSchema.any_of : JsonSchema → Option (List JsonSchema)
  | JsonSchema.mk _ _ _ _ a _ _ _ => a

def JsonSchema.enum_value : JsonSchema → Option (List String)
  | JsonSchema.mk _ _ _ _ _ e _ _ => e

def JsonSchema.default : JsonSchema → Option JValue
  | JsonSchema.mk _ _ _ _ _ _ d _ => d

def JsonSchema.required : JsonSchema → Option (List String)
  | JsonSchema.mk _ _ _ _ _ _ _ r => r

/-- struct FunctionDeclaration (fields as used in convert.rs). -/
structure FunctionDeclaration where
  name : String
  description : String
  parameters : JsonSchema
  agent : Bool

/-! ### Glob pattern matching (`ToolPermission::matches_pattern`).

The Rust code splits the pattern on `*`, regex-escapes each fragment and
joins them with `.*` inside `^...$` anchors.  In the regex dialect used
(fancy_regex, defaults) `.` matches any character except `\n`, and the
anchors delimit the whole haystack.  `matchSegs` below is the matching
semantics of that constructed regex: each `.*` gap consumes an arbitrary
run of non-newline characters. -/

/-- Boolean list-prefix test (the regex consuming one literal fragment). -/
def listStartsWith : List Char → List Char → Bool
  | [], _ => true
  | _ :: _, [] => false
  | p :: ps, c :: cs => p == c && listStartsWith ps cs

/-- All suffixes of `s` reachable by `.*`: the skipped run must not
contain a newline, since `.` does not match `\n`. -/
def tailsNoNL : List Char → List (List Char)
  | [] => [[]]
  | c :: cs => (c :: cs) :: (if c = '\n' then [] else tailsNoNL cs)

/-- Matching of the regex tail `.*p₀.*p₁⋯.*pₖ$` against a string:
semantics of the fragment list produced by splitting the glob on `*`. -/
def matchSegs : List (List Char) → List Char → Bool
  | [], s => s.isEmpty
  | p :: ps, s =>
    (tailsNoNL s).any (fun s' => listStartsWith p s' && matchSegs ps (s'.drop p.length))

/-- Rust `pattern.split('*')`: first fragment plus the remaining fragments. -/
def splitStar : List Char → List Char × List (List Char)
  | [] => ([], [])
  | c :: cs =>
    let r := splitStar cs
    if c = '*' then ([], r.1 :: r.2) else (c :: r.1, r.2)

/-- Semantics of the anchored regex `^p₀.*p₁⋯.*pₖ$` built from the glob:
the first fragment must match at the start, the rest via `matchSegs`. -/
def regexGlobMatch (pat s : List Char) : Bool :=
  let r := splitStar pat
  listStartsWith r.1 s && matchSegs r.2 (s.drop r.1.length)

/-- `ToolPermission::matches_pattern` (permission.rs:211-239): exact-equality
fast path; a pattern containing `*` that consists solely of `*` matches
unconditionally; otherwise the glob is compiled to an anchored regex with
all non-`*` characters escaped.  A pattern without `*` matches only by
equality. -/
def matches_pattern (tool_name pattern : String) : Bool :=
  match pattern == tool_name with
  | true => true
  | false =>
    match pattern.toList.contains '*' with
    | true =>
      match pattern.toList.all (fun c => c == '*') with
      | true => true
      | false => regexGlobMatch pattern.toList tool_name.toList
    | false => false

/-- `ToolPermission::matches_any_pattern`. -/
def matches_any_pattern (tool_name : String) (patterns : List String) : Bool :=
  patterns.any (fun pattern => matches_pattern tool_name pattern)

/-! Spec-side matchers, for comparison with the code. -/

/-- Spec glob matcher, following the spec words: `*` is the sole wildcard
and matches any sequence of characters; every other character is literal. -/
def specGlob : List Char → List Char → Bool
  | [], s => s.isEmpty
  | c :: ps, s =>
    if c = '*' then s.tails.any (fun s' => specGlob ps s')
    else
      match s with
      | [] => false
      | d :: s' => c == d && specGlob ps s'

/-- Amended spec glob matcher: like `specGlob` except the `*` wildcard only
matches runs of non-newline characters (matching the `.*` translation). -/
def specGlobNoNL : List Char → List Char → Bool
  | [], s => s.isEmpty
  | c :: ps, s =>
    if c = '*' then (tailsNoNL s).any (fun s' => specGlobNoNL ps s')
    else
      match s with
      | [] => false
      | d :: s' => c == d && specGlobNoNL ps s'

/-! ### Namespaced tool identifiers (`src/mcp/mod.rs`). -/

/-- str::strip_prefix("mcp__"). -/
def dropMcpHead : List Char → Option (List Char)
  | 'm' :: 'c' :: 'p' :: '_' :: '_' :: rest => some rest
  | _ => none

/-- str::split_once("__"): split at the first occurrence of a double
underscore, scanning left to right. -/
def splitOnceUU : List Char → Option (List Char × List Char)
  | [] => none
  | c :: cs =>
    if c = '_' then
      match cs with
      | c2 :: cs2 =>
        if c2 = '_' then some ([], cs2)
        else (splitOnceUU cs).map (fun r => (c :: r.1, r.2))
      | [] => none
    else (splitOnceUU cs).map (fun r => (c :: r.1, r.2))

/-- `extract_server_name` (mod.rs:23-30): strip the mcp prefix, split once
on the double underscore, reject empty server or tool segments. -/
def extract_server_name (tool_name : String) : Option String :=
  match dropMcpHead tool_name.toList with
  | none => none
  | some rest =>
    match splitOnceUU rest with
    | none => none
    | some (server, tool) =>
      if server.isEmpty || tool.isEmpty then none else some (String.mk server)

/-! ### Permission engine (`src/function/permission.rs`). -/

inductive PermissionLevel where
  | Always
  | Never
  | Ask
  deriving DecidableEq

/-- str::to_lowercase, modeled as per-character case folding (the posture
keywords are ASCII; Rust performs full Unicode lowercasing). -/
def lowercase (s : String) : String :=
  String.mk (s.toList.map Char.toLower)

/-- `PermissionLevel::from_str` (permission.rs:22-32): case-insensitive
always/never/ask; any other value resolves to Ask. -/
def PermissionLevel.fromStr (s : String) : PermissionLevel :=
  match lowercase s with
  | "always" => PermissionLevel.Always
  | "never" => PermissionLevel.Never
  | "ask" => PermissionLevel.Ask
  | _ => PermissionLevel.Ask

/-- struct ToolPermissions (from its use in permission.rs and its tests). -/
structure ToolPermissions where
  allowed : Option (List String)
  denied : Option (List String)
  ask : Option (List String)

/-- struct McpServerConfig (`src/mcp/config.rs`). -/
structure McpServerConfig where
  name : String
  command : String
  args : List String
  env : List (String × String)
  enabled : Bool
  trusted : Bool
  description : Option String

/-- struct ToolCall (from its construction in permission.rs tests). -/
structure ToolCall where
  name : String
  arguments : JValue
  id : Option String

/-- The fields of `ToolPermission` plus the config snapshot read by
`check_permission`: session grant set, persisted grant stores, verbose
flag, global/role default-posture strings, global/role pattern policies,
and the configured MCP servers. -/
structure PermState where
  session_allowed : List String
  conversation_tool_permissions : List String
  session_perms : Option (List String)
  verbose_tool_calls : Bool
  tool_call_permission : Option String
  tool_permissions : Option ToolPermissions
  mcp_servers : List McpServerConfig
  role_tool_call_permission : Option String
  role_tool_permissions : Option ToolPermissions

/-- The interactive environment of one permission check: whether stdout is
an interactive terminal (IS_STDOUT_TERMINAL), and which option the user
selects when prompted (None models cancellation or a prompt error). -/
structure PromptEnv where
  is_stdout_terminal : Bool
  choice : Option String

/-- `ToolPermission::prompt_user` (permission.rs:151-203): without a
terminal it fails closed; approve-once allows; approve-for-session allows
and records the name in the session grant set, the conversation grant
store, and the active named session's own list if one is active; any
other outcome denies. -/
def prompt_user (st : PermState) (env : PromptEnv) (tc : ToolCall) :
    Except String Bool × PermState :=
  match env.is_stdout_terminal with
  | false => (Except.ok false, st)
  | true =>
    match env.choice with
    | some "Yes (this time only)" => (Except.ok true, st)
    | some "Yes (for this session)" =>
      (Except.ok true,
        { st with
          session_allowed := tc.name :: st.session_allowed
          conversation_tool_permissions := tc.name :: st.conversation_tool_permissions
          session_perms := st.session_perms.map (fun l => tc.name :: l) })
    | _ => (Except.ok false, st)

/-- The trusted-MCP-server bypass test of check_permission
(permission.rs:87-98). -/
def trustedBypass (servers : List McpServerConfig) (tool_name : String) : Bool :=
  match listStartsWith ('m' :: 'c' :: 'p' :: '_' :: '_' :: []) tool_name.toList with
  | true =>
    match extract_server_name tool_name with
    | some server_name =>
      match servers.find? (fun s => s.name == server_name) with
      | some cfg => cfg.trusted
      | none => false
    | none => false
  | false => false

/-- The default posture selection (permission.rs:100-107): role posture
string if present, else global posture string, else the
backward-compatible Always. -/
def defaultPermission (st : PermState) : PermissionLevel :=
  match st.role_tool_call_permission with
  | some p => PermissionLevel.fromStr p
  | none =>
    match st.tool_call_permission with
    | some p => PermissionLevel.fromStr p
    | none => PermissionLevel.Always

/-- The effective pattern policy (permission.rs:109): role policy if
present, else the global one. -/
def effectiveToolPerms (st : PermState) : Option ToolPermissions :=
  match st.role_tool_permissions with
  | some tp => some tp
  | none => st.tool_permissions

/-- Whether the denied pattern list is present and matches. -/
def deniedHit (tp : ToolPermissions) (tool_name : String) : Bool :=
  match tp.denied with
  | some l => matches_any_pattern tool_name l
  | none => false

/-- Whether the allowed pattern list is present and matches. -/
def allowedHit (tp : ToolPermissions) (tool_name : String) : Bool :=
  match tp.allowed with
  | some l => matches_any_pattern tool_name l
  | none => false

/-- Whether the ask pattern list is present and matches. -/
def askHit (tp : ToolPermissions) (tool_name : String) : Bool :=
  match tp.ask with
  | some l => matches_any_pattern tool_name l
  | none => false

/-- The final default-posture step of check_permission
(permission.rs:134-148): Always allows, Never denies, Ask prompts. -/
def applyDefault (st : PermState) (env : PromptEnv) (tc : ToolCall) :
    Except String Bool × PermState :=
  match defaultPermission st with
  | PermissionLevel.Always => (Except.ok true, st)
  | PermissionLevel.Never => (Except.ok false, st)
  | PermissionLevel.Ask => prompt_user st env tc

/-- `ToolPermission::check_permission` (permission.rs:65-149). Resolution
order: session grant, trusted-server bypass, denied patterns, allowed
patterns, ask patterns, default posture.  The Rust function returns
Result of bool; the returned state records any session-grant insertion
performed by the prompt. -/
def check_permission (st : PermState) (env : PromptEnv) (tc : ToolCall) :
    Except String Bool × PermState :=
  match st.session_allowed.contains tc.name with
  | true => (Except.ok true, st)
  | false =>
    match trustedBypass st.mcp_servers tc.name with
    | true => (Except.ok true, st)
    | false =>
      match effectiveToolPerms st with
      | some tp =>
        match deniedHit tp tc.name with
        | true => (Except.ok false, st)
        | false =>
          match allowedHit tp tc.name with
          | true => (Except.ok true, st)
          | false =>
            match askHit tp tc.name with
            | true => prompt_user st env tc
            | false => applyDefault st env tc
      | none => applyDefault st env tc

/-- The condition under which check_permission reaches its final
default-posture step: an effective policy exists but none of its lists
match, or no effective policy exists at all. -/
def noPatternApplies (st : PermState) (tool_name : String) : Prop :=
  ∀ tp, effectiveToolPerms st = some tp →
    deniedHit tp tool_name = false ∧ allowedHit tp tool_name = false ∧
      askHit tp tool_name = false

/-! ### Schema conversion (`src/mcp/convert.rs`). -/

/-- Size bound used for termination: a field value extracted from an
object is structurally smaller than the object. -/
def sizeOf_of_jGet {v : JValue} {k : String} {w : JValue}
    (h : jGet v k = some w) : sizeOf w < sizeOf v := by
  cases v with
  | obj fields =>
    simp only [jGet, Option.map_eq_some'] at h
    rcases h with ⟨kv, hfind, hw⟩
    have hmem : kv ∈ fields := List.mem_of_find?_eq_some hfind
    have h1 : sizeOf kv < sizeOf fields := List.sizeOf_lt_of_mem hmem
    cases kv with
    | mk k' v' =>
      simp only [JValue.obj.sizeOf_spec]
      simp only [Prod.mk.sizeOf_spec] at h1
      subst hw
      dsimp only
      omega
  | null => simp [jGet] at h
  | bool b => simp [jGet] at h
  | num n => simp [jGet] at h
  | str s => simp [jGet] at h
  | arr l => simp [jGet] at h

/-- Termination bound: the field list of an object field is smaller than
the enclosing value. -/
def sizeOf_of_jGet_obj {v : JValue} {k : String} {fs : List (String × JValue)}
    (h : (jGet v k).bind jAsObj = some fs) : sizeOf fs < sizeOf v := by
  rcases Option.bind_eq_some.mp h with ⟨w, hw, hfs⟩
  have h1 : sizeOf w < sizeOf v := sizeOf_of_jGet hw
  cases w with
  | obj fields =>
    simp only [jAsObj, Option.some.injEq] at hfs
    subst hfs
    simp only [JValue.obj.sizeOf_spec] at h1
    omega
  | null => simp [jAsObj] at hfs
  | bool b => simp [jAsObj] at hfs
  | num n => simp [jAsObj] at hfs
  | str s => simp [jAsObj] at hfs
  | arr l => simp [jAsObj] at hfs

/-- Termination bound: the element list of an array field is smaller than
the enclosing value. -/
def sizeOf_of_jGet_arr {v : JValue} {k : String} {l : List JValue}
    (h : (jGet v k).bind jAsArr = some l) : sizeOf l < sizeOf v := by
  rcases Option.bind_eq_some.mp h with ⟨w, hw, hl⟩
  have h1 : sizeOf w < sizeOf v := sizeOf_of_jGet hw
  cases w with
  | arr xs =>
    simp only [jAsArr, Option.some.injEq] at hl
    subst hl
    simp only [JValue.arr.sizeOf_spec] at h1
    omega
  | null => simp [jAsArr] at hl
  | bool b => simp [jAsArr] at hl
  | num n => simp [jAsArr] at hl
  | str s => simp [jAsArr] at hl
  | obj fs => simp [jAsArr] at hl

mutual

/-- `convert_json_schema` (convert.rs:28-85): read type, description and
default directly; convert each property in order; keep only the string
entries of required and enum; convert items and each anyOf alternative
recursively.  Every absent field stays unset.  The Result type mirrors the
Rust signature; note no branch constructs an error. -/
def convert_json_schema (schema : JValue) : Except String JsonSchema :=
  match propsResult schema, itemsResult schema, anyofResult schema with
  | Except.ok props, Except.ok items, Except.ok anys =>
    Except.ok (JsonSchema.mk
      ((jGet schema "type").bind jAsStr)
      ((jGet schema "description").bind jAsStr)
      props items anys
      (((jGet schema "enum").bind jAsArr).map (fun l => l.filterMap jAsStr))
      (jGet schema "default")
      (((jGet schema "required").bind jAsArr).map (fun l => l.filterMap jAsStr)))
  | Except.error e, _, _ => Except.error e
  | _, Except.error e, _ => Except.error e
  | _, _, Except.error e => Except.error e
termination_by (sizeOf schema, 3)
decreasing_by
  · exact Prod.Lex.right _ (by omega)
  · exact Prod.Lex.right _ (by omega)
  · exact Prod.Lex.right _ (by omega)

/-- The properties step of convert_json_schema (convert.rs:46-52): when a
properties object is present, convert each entry in order. -/
def propsResult (schema : JValue) :
    Except String (Option (List (String × JsonSchema))) :=
  match hp : (jGet schema "properties").bind jAsObj with
  | some fs => Except.map some (convertFields fs)
  | none => Except.ok none
termination_by (sizeOf schema, 1)
decreasing_by
  · exact Prod.Lex.left _ _ (sizeOf_of_jGet_obj hp)

/-- The items step of convert_json_schema (convert.rs:63-65): any present
items value is converted recursively. -/
def itemsResult (schema : JValue) : Except String (Option JsonSchema) :=
  match hi : jGet schema "items" with
  | some it => Except.map some (convert_json_schema it)
  | none => Except.ok none
termination_by (sizeOf schema, 1)
decreasing_by
  · exact Prod.Lex.left _ _ (sizeOf_of_jGet hi)

/-- The anyOf step of convert_json_schema (convert.rs:67-73): each
alternative of a present anyOf array is converted in order. -/
def anyofResult (schema : JValue) : Except String (Option (List JsonSchema)) :=
  match ha : (jGet schema "anyOf").bind jAsArr with
  | some l => Except.map some (convertList l)
  | none => Except.ok none
termination_by (sizeOf schema, 1)
decreasing_by
  · exact Prod.Lex.left _ _ (sizeOf_of_jGet_arr ha)

/-- The properties conversion loop (convert.rs:46-52), preserving order. -/
def convertFields : List (String × JValue) → Except String (List (String × JsonSchema))
  | [] => Except.ok []
  | (k, v) :: fs =>
    match convert_json_schema v with
    | Except.error e => Except.error e
    | Except.ok c =>
      match convertFields fs with
      | Except.error e => Except.error e
      | Except.ok rest => Except.ok ((k, c) :: rest)
termination_by fs => (sizeOf fs, 2)
decreasing_by
  · exact Prod.Lex.left _ _ (by simp; omega)
  · exact Prod.Lex.left _ _ (by simp)

/-- The anyOf conversion loop (convert.rs:67-73), preserving order. -/
def convertList : List JValue → Except String (List JsonSchema)
  | [] => Except.ok []
  | v :: vs =>
    match convert_json_schema v with
    | Except.error e => Except.error e
    | Except.ok c =>
      match convertList vs with
      | Except.error e => Except.error e
      | Except.ok rest => Except.ok (c :: rest)
termination_by l => (sizeOf l, 2)
decreasing_by
  · exact Prod.Lex.left _ _ (by simp; omega)
  · exact Prod.Lex.left _ _ (by simp)

end

/-- `mcp_tool_to_function` (convert.rs:7-26): build the namespaced name and
convert the input schema; a conversion failure fails this single tool. -/
def mcp_tool_to_function (server_name tool_name tool_description : String)
    (input_schema : JValue) : Except String FunctionDeclaration :=
  let prefixed_name := "mcp__" ++ server_name ++ "__" ++ tool_name
  match convert_json_schema input_schema with
  | Except.error e =>
    Except.error ("Failed to convert schema for MCP tool " ++ tool_name ++ ": " ++ e)
  | Except.ok parameters =>
    Except.ok ⟨prefixed_name, tool_description, parameters, false⟩

/-! ### MCP client and registry (`src/mcp/client.rs`). -/

/-- The per-connection state of one McpClient: name, connected flag and
cached converted tool list. -/
structure ClientState where
  name : String
  connected : Bool
  tools : List FunctionDeclaration

/-- One tool entry of a provider catalogue (rmcp Tool: name, optional
description, input schema). -/
structure McpToolInfo where
  name : String
  description : Option String
  input_schema : JValue

/-- The external world one connect() attempt interacts with: transport
creation, the rmcp handshake, and the list_tools round trip.  Each may
fail independently. -/
structure ConnectEnv where
  transport : Except String Unit
  handshake : Except String Unit
  list_tools : Except String (List McpToolInfo)

/-- `McpClient::connect` (client.rs:56-130): idempotent when connected;
transport or handshake failure surfaces an error and leaves the state
untouched; each catalogue tool goes through mcp_tool_to_function and a
failing tool is skipped (logged) without aborting; a failing list_tools
leaves the tool list empty; on success the converted tools are cached and
the connected flag set. -/
def McpClient.connect (st : ClientState) (env : ConnectEnv) :
    Except String ClientState :=
  match st.connected with
  | true => Except.ok st
  | false =>
    match env.transport with
    | Except.error e =>
      Except.error ("Failed to create transport for MCP server " ++ st.name ++ ": " ++ e)
    | Except.ok _ =>
      match env.handshake with
      | Except.error e =>
        Except.error ("Failed to initialize MCP service for server " ++ st.name ++ ": " ++ e)
      | Except.ok _ =>
        let discovered : List FunctionDeclaration :=
          match env.list_tools with
          | Except.ok tools =>
            tools.filterMap (fun t =>
              (mcp_tool_to_function st.name t.name (t.description.getD "") t.input_schema).toOption)
          | Except.error _ => []
        Except.ok { st with tools := discovered, connected := true }

/-- The McpManager client map: names to client states (HashMap modeled as
an association list with unique keys; lookup is find?). -/
abbrev Registry : Type := List (String × ClientState)

/-- Outcome of McpManager::call_tool as far as routing is concerned:
either one of the two parse failures, a failed provider lookup, or
delivery of the call to the named provider's client. -/
inductive DispatchResult where
  | malformedName (name : String)
  | serverNotFound (server : String)
  | routed (server tool : String) (args : JValue)

/-- `McpManager::call_tool` (client.rs:263-280): strip the mcp prefix
(else a malformed-name error), split at the first double underscore into
provider and tool (a missing separator is a malformed-name error), look
the provider up (else a not-found error), and forward tool and arguments
to that provider's client. -/
def manager_call_tool (clients : Registry) (prefixed_name : String)
    (arguments : JValue) : DispatchResult :=
  match dropMcpHead prefixed_name.toList with
  | none => DispatchResult.malformedName prefixed_name
  | some rest =>
    match splitOnceUU rest with
    | none => DispatchResult.malformedName prefixed_name
    | some (srv, tool) =>
      let server_name := String.mk srv
      let tool_name := String.mk tool
      match clients.find? (fun c => c.1 == server_name) with
      | none => DispatchResult.serverNotFound server_name
      | some _ => DispatchResult.routed server_name tool_name arguments

/-! ### Fixtures used by concrete instantiations. -/

/-- The schema with every field unset. -/
def emptySchema : JsonSchema :=
  JsonSchema.mk none none none none none none none none

/-- Unwrap a conversion result (conversion never fails; the fallback is
the empty schema). -/
def convertUnwrap (v : JValue) : JsonSchema :=
  (convert_json_schema v).toOption.getD emptySchema

/-- Length of the items chain of a converted schema: the nesting depth
reached by the converter along the items axis. -/
def itemsDepth : JsonSchema → Nat
  | JsonSchema.mk _ _ _ (some t) _ _ _ _ => itemsDepth t + 1
  | _ => 0

/-- A JSON schema nested to depth n along the items field: adversarially
deep input for the depth-ceiling claim. -/
def nestedSchema : Nat → JValue
  | 0 => JValue.obj []
  | n + 1 => JValue.obj [("items", nestedSchema n)]

/-- A disconnected client, used when instantiating registries. -/
def blankClient (n : String) : ClientState :=
  { name := n, connected := true, tools := [] }

/-! ### Concrete fixtures used to instantiate theorems. -/

/-- A trusted server configuration (mirrors the repository test). -/
def trustedServerCfg : McpServerConfig :=
  { name := "trusted_server", command := "echo", args := [], env := [],
    enabled := true, trusted := true, description := none }

/-- An untrusted server configuration (mirrors the repository test). -/
def untrustedServerCfg : McpServerConfig :=
  { name := "untrusted_server", command := "echo", args := [], env := [],
    enabled := true, trusted := false, description := none }

/-- The default configuration state: nothing configured. -/
def basePermState : PermState :=
  { session_allowed := [], conversation_tool_permissions := [], session_perms := none,
    verbose_tool_calls := false, tool_call_permission := none, tool_permissions := none,
    mcp_servers := [], role_tool_call_permission := none, role_tool_permissions := none }

/-- Global posture never, one trusted and one untrusted server. -/
def neverPermState : PermState :=
  { basePermState with
    tool_call_permission := some "never"
    mcp_servers := [trustedServerCfg, untrustedServerCfg] }

/-- Same pattern denied and allowed, posture always (mirrors the
repository test, with the identical glob in both lists). -/
def denyAllowPermState : PermState :=
  { basePermState with
    tool_call_permission := some "always"
    tool_permissions := some
      { allowed := some ["mcp__srv__*"], denied := some ["mcp__srv__*"], ask := none } }

/-- A session grant for fs_read under a global never posture. -/
def sessionPermState : PermState :=
  { basePermState with
    session_allowed := ["fs_read"]
    tool_call_permission := some "never" }

/-- Global posture ask, nothing else configured. -/
def askPermState : PermState :=
  { basePermState with tool_call_permission := some "ask" }

/-- An unrecognized global posture string. -/
def garbagePermState : PermState :=
  { basePermState with tool_call_permission := some "sometimes" }

/-- No interactive terminal attached. -/
def noTtyEnv : PromptEnv := { is_stdout_terminal := false, choice := none }

/-- Terminal attached, user selects remember-for-session. -/
def sessionYesEnv : PromptEnv :=
  { is_stdout_terminal := true, choice := some "Yes (for this session)" }

/-- A call on the trusted server. -/
def trustedToolCall : ToolCall :=
  { name := "mcp__trusted_server__tool", arguments := JValue.obj [], id := none }

/-- A call on the untrusted server. -/
def untrustedToolCall : ToolCall :=
  { name := "mcp__untrusted_server__tool", arguments := JValue.obj [], id := none }

/-- The call matched by both lists of denyAllowPermState. -/
def srvToolCall : ToolCall :=
  { name := "mcp__srv__tool", arguments := JValue.obj [], id := none }

/-- A plain non-MCP call. -/
def fsReadToolCall : ToolCall :=
  { name := "fs_read", arguments := JValue.obj [], id := none }

/-- A fresh, disconnected client. -/
def testClientState : ClientState := { name := "test", connected := false, tools := [] }

/-- A two-tool catalogue. -/
def testCatalogue : List McpToolInfo :=
  [ { name := "echo_structured", description := some "Echo", input_schema := JValue.obj [] },
    { name := "t2", description := none,
      input_schema := JValue.obj [("type", JValue.str "object")] } ]

/-- A connect environment whose transport, handshake and catalogue fetch
all succeed. -/
def testConnectEnv : ConnectEnv :=
  { transport := Except.ok (), handshake := Except.ok (),
    list_tools := Except.ok testCatalogue }

/-- The mode property of the spec round-trip example: an enum with a
default. -/
def modeSchema : JValue :=
  JValue.obj [("type", JValue.str "string"),
    ("enum", JValue.arr [JValue.str "a", JValue.str "b"]),
    ("default", JValue.str "a")]

/-- The value property of the spec round-trip example: a two-alternative
union. -/
def valueSchema : JValue :=
  JValue.obj [("anyOf", JValue.arr
    [JValue.obj [("type", JValue.str "string")],
     JValue.obj [("type", JValue.str "number")]])]

/-- The spec round-trip example schema. -/
def roundTripSchema : JValue :=
  JValue.obj [("type", JValue.str "object"),
    ("description", JValue.str "Top"),
    ("required", JValue.arr [JValue.str "mode"]),
    ("properties", JValue.obj [("mode", modeSchema), ("value", valueSchema)])]

/-- A schema whose enum holds a non-string entry. -/
def enumDropSchema : JValue :=
  JValue.obj [("enum", JValue.arr [JValue.num 1])]

/-! ## Theorems -/

/-- The split-on-star regex semantics coincides with the direct recursive
glob matcher whose `*` skips runs of non-newline characters. -/
theorem regexGlob_eq_specGlobNoNL (p : List Char) :
    ∀ s, regexGlobMatch p s = specGlobNoNL p s := by
  induction p with
  | nil =>
    intro s
    simp [regexGlobMatch, splitStar, matchSegs, listStartsWith, specGlobNoNL]
  | cons c cs ih =>
    intro s
    simp only [regexGlobMatch] at ih
    by_cases hc : c = '*'
    · subst hc
      simp only [regexGlobMatch, splitStar, reduceIte]
      simp only [listStartsWith, Bool.true_and, List.length_nil, List.drop_zero, matchSegs]
      simp only [specGlobNoNL, reduceIte]
      simp only [ih]
    · cases s with
      | nil =>
        simp only [regexGlobMatch, splitStar, if_neg hc]
        simp only [listStartsWith, Bool.false_and, specGlobNoNL, if_neg hc]
      | cons d s' =>
        simp only [regexGlobMatch, splitStar, if_neg hc]
        simp only [listStartsWith, List.length_cons, List.drop_succ_cons,
          Bool.and_assoc, specGlobNoNL, if_neg hc]
        rw [ih s']

/-- A nonempty list of stars contains a star. -/
theorem contains_star_of_all_star {l : List Char} (hne : l ≠ [])
    (hall : ∀ c ∈ l, c = '*') : l.contains '*' = true := by
  cases l with
  | nil => exact absurd rfl hne
  | cons c cs =>
    have hc : c = '*' := hall c (List.mem_cons_self c cs)
    subst hc
    simp [List.contains]

/-- Claim C4 (counterexample): the pattern a*b does not match the name
containing a newline between a and b, although the spec glob (where `*`
matches any sequence of characters and all other characters are literal)
does match it: the wildcard is compiled to a regex `.*` which excludes
newlines. -/
theorem c4_counterexample :
    matches_pattern "a\nb" "a*b" = false ∧
      specGlob "a*b".toList "a\nb".toList = true := by
  exact ⟨by decide, by decide⟩

/-- Claim C4 (amended): matching is glob-only with every regex
metacharacter literal; a pattern consisting solely of `*` (one or more)
matches unconditionally; any other pattern matches a string iff the
string equals the pattern verbatim or matches it as a glob in which each
`*` matches a run of characters free of newlines (the `*` wildcard is
compiled to the regex `.*`, which does not match a newline). -/
theorem c4_claim (tool_name pattern : String) :
    matches_pattern tool_name pattern = true ↔
      (pattern = tool_name ∨
        (pattern.toList ≠ [] ∧ ∀ c ∈ pattern.toList, c = '*') ∨
        (pattern.toList.contains '*' = true ∧
          specGlobNoNL pattern.toList tool_name.toList = true)) := by
  by_cases heq : pattern = tool_name
  · subst heq
    simp [matches_pattern]
  · have hbeq : (pattern == tool_name) = false := beq_eq_false_iff_ne.mpr heq
    by_cases hstar : pattern.toList.contains '*' = true
    · by_cases hall : pattern.toList.all (fun c => c == '*') = true
      · have hne : pattern.toList ≠ [] := by
          intro h
          rw [h] at hstar
          simp [List.contains] at hstar
        have hallp : ∀ c ∈ pattern.toList, c = '*' := by
          intro c hc
          exact beq_iff_eq.mp (List.all_eq_true.mp hall c hc)
        have hmp : matches_pattern tool_name pattern = true := by
          simp only [matches_pattern, hbeq, hstar, hall]
        exact ⟨fun _ => Or.inr (Or.inl ⟨hne, hallp⟩), fun _ => hmp⟩
      · have hall' : pattern.toList.all (fun c => c == '*') = false :=
          eq_false_of_ne_true hall
        have hnall : ¬(pattern.toList ≠ [] ∧ ∀ c ∈ pattern.toList, c = '*') := by
          rintro ⟨-, hallp⟩
          exact hall (List.all_eq_true.mpr (fun c hc => beq_iff_eq.mpr (hallp c hc)))
        have hmp : matches_pattern tool_name pattern =
            regexGlobMatch pattern.toList tool_name.toList := by
          simp only [matches_pattern, hbeq, hstar, hall']
        rw [hmp, regexGlob_eq_specGlobNoNL]
        constructor
        · intro h
          exact Or.inr (Or.inr ⟨hstar, h⟩)
        · rintro (h | h | h)
          · exact absurd h heq
          · exact absurd h hnall
          · exact h.2
    · have hstar' : pattern.toList.contains '*' = false := eq_false_of_ne_true hstar
      have hnall : ¬(pattern.toList ≠ [] ∧ ∀ c ∈ pattern.toList, c = '*') := by
        rintro ⟨hne, hallp⟩
        rw [contains_star_of_all_star hne hallp] at hstar'
        exact Bool.noConfusion hstar'
      have hmp : matches_pattern tool_name pattern = false := by
        simp only [matches_pattern, hbeq, hstar']
      rw [hmp]
      constructor
      · intro h
        exact Bool.noConfusion h
      · rintro (h | h | h)
        · exact absurd h heq
        · exact absurd h hnall
        · rw [h.1] at hstar'
          exact Bool.noConfusion hstar'

/-- Claim C4 (witness): the amended characterization applied to a
concrete wildcard pattern. -/
theorem c4_witness : matches_pattern "fs_read" "fs_*" = true :=
  (c4_claim "fs_read" "fs_*").mpr
    (Or.inr (Or.inr ⟨by decide, by decide⟩))

/-- Inversion for the mcp prefix stripper. -/
theorem dropMcpHead_eq_some {l rest : List Char} (h : dropMcpHead l = some rest) :
    l = 'm' :: 'c' :: 'p' :: '_' :: '_' :: rest := by
  unfold dropMcpHead at h
  split at h
  · cases h
    rfl
  · cases h

/-- A name whose server extraction succeeds carries the mcp prefix. -/
theorem startsWith_of_extract {n : String} {p : String}
    (h : extract_server_name n = some p) :
    listStartsWith ('m' :: 'c' :: 'p' :: '_' :: '_' :: []) n.toList = true := by
  unfold extract_server_name at h
  cases hd : dropMcpHead n.toList with
  | none => rw [hd] at h; cases h
  | some rest =>
    rw [dropMcpHead_eq_some hd]
    simp [listStartsWith]

/-- The trusted bypass reduces to the trusted flag of the provider found
for the extracted server name. -/
theorem trustedBypass_eq {servers : List McpServerConfig} {n p : String}
    {cfg : McpServerConfig}
    (hp : extract_server_name n = some p)
    (hf : servers.find? (fun s => s.name == p) = some cfg) :
    trustedBypass servers n = cfg.trusted := by
  unfold trustedBypass
  rw [startsWith_of_extract hp]
  simp only [hp, hf]

/-- prompt_user always resolves to an ok boolean. -/
theorem prompt_user_isOk (st : PermState) (env : PromptEnv) (tc : ToolCall) :
    ∃ b, (prompt_user st env tc).1 = Except.ok b := by
  unfold prompt_user
  split
  · exact ⟨false, rfl⟩
  · split
    · exact ⟨true, rfl⟩
    · exact ⟨true, rfl⟩
    · exact ⟨false, rfl⟩

/-- prompt_user never removes a name from the session grant set. -/
theorem prompt_user_mono {st : PermState} {env : PromptEnv} {tc : ToolCall}
    {n : String} (h : st.session_allowed.contains n = true) :
    (prompt_user st env tc).2.session_allowed.contains n = true := by
  unfold prompt_user
  split
  · exact h
  · split
    · exact h
    · simp only [List.contains, List.elem_cons]
      split
      · rfl
      · exact h
    · exact h

/-- applyDefault never removes a name from the session grant set. -/
theorem applyDefault_mono {st : PermState} {env : PromptEnv} {tc : ToolCall}
    {n : String} (h : st.session_allowed.contains n = true) :
    (applyDefault st env tc).2.session_allowed.contains n = true := by
  unfold applyDefault
  split
  · exact h
  · exact h
  · exact prompt_user_mono h

/-- check_permission never removes a name from the session grant set. -/
theorem check_permission_mono {st : PermState} {env : PromptEnv} {tc : ToolCall}
    {n : String} (h : st.session_allowed.contains n = true) :
    (check_permission st env tc).2.session_allowed.contains n = true := by
  unfold check_permission
  repeat' split
  all_goals first
    | exact h
    | exact prompt_user_mono h
    | exact applyDefault_mono h

/-- An ok-boolean for applyDefault. -/
theorem applyDefault_isOk (st : PermState) (env : PromptEnv) (tc : ToolCall) :
    ∃ b, (applyDefault st env tc).1 = Except.ok b := by
  unfold applyDefault
  split
  · exact ⟨true, rfl⟩
  · exact ⟨false, rfl⟩
  · exact prompt_user_isOk st env tc

/-- Claim C2: a namespaced call whose provider is configured trusted is
allowed even under a global Never default with no matching pattern, while
the identical call on an untrusted provider under that posture is denied. -/
theorem c2_claim (st : PermState) (env : PromptEnv) (tc1 tc2 : ToolCall)
    (p1 p2 : String) (cfg1 cfg2 : McpServerConfig)
    (hp1 : extract_server_name tc1.name = some p1)
    (hf1 : st.mcp_servers.find? (fun s => s.name == p1) = some cfg1)
    (ht1 : cfg1.trusted = true)
    (hp2 : extract_server_name tc2.name = some p2)
    (hf2 : st.mcp_servers.find? (fun s => s.name == p2) = some cfg2)
    (ht2 : cfg2.trusted = false)
    (hsess : st.session_allowed.contains tc2.name = false)
    (hnp : noPatternApplies st tc2.name)
    (hdef : defaultPermission st = PermissionLevel.Never) :
    check_permission st env tc1 = (Except.ok true, st) ∧
      check_permission st env tc2 = (Except.ok false, st) := by
  constructor
  · have htb : trustedBypass st.mcp_servers tc1.name = true := by
      rw [trustedBypass_eq hp1 hf1, ht1]
    cases hc : st.session_allowed.contains tc1.name with
    | true => simp only [check_permission, hc]
    | false => simp only [check_permission, hc, htb]
  · have htb2 : trustedBypass st.mcp_servers tc2.name = false := by
      rw [trustedBypass_eq hp2 hf2, ht2]
    cases he : effectiveToolPerms st with
    | none => simp only [check_permission, hsess, htb2, he, applyDefault, hdef]
    | some tp =>
      obtain ⟨hd, ha, hask⟩ := hnp tp he
      simp only [check_permission, hsess, htb2, he, hd, ha, hask, applyDefault, hdef]

/-- Claim C2 (witness): the repository test scenario, a trusted and an
untrusted server under a global never posture. -/
theorem c2_witness :
    check_permission neverPermState noTtyEnv trustedToolCall = (Except.ok true, neverPermState) ∧
      check_permission neverPermState noTtyEnv untrustedToolCall = (Except.ok false, neverPermState) :=
  c2_claim neverPermState noTtyEnv trustedToolCall untrustedToolCall
    "trusted_server" "untrusted_server" trustedServerCfg untrustedServerCfg
    (by decide) (by rfl) (by rfl) (by decide) (by rfl) (by rfl) (by rfl)
    (fun tp h => Option.noConfusion h) (by decide)

/-- Claim C3: when some pattern occurs in both the denied and the allowed
lists and the call name matches it, check_permission denies, for every
default posture and regardless of list order. -/
theorem c3_claim (st : PermState) (env : PromptEnv) (tc : ToolCall)
    (tp : ToolPermissions) (p : String) (dl al : List String)
    (hsess : st.session_allowed.contains tc.name = false)
    (htrust : trustedBypass st.mcp_servers tc.name = false)
    (htp : effectiveToolPerms st = some tp)
    (hdl : tp.denied = some dl) (hal : tp.allowed = some al)
    (hpd : p ∈ dl) (hpa : p ∈ al)
    (hm : matches_pattern tc.name p = true) :
    check_permission st env tc = (Except.ok false, st) := by
  have hdh : deniedHit tp tc.name = true := by
    unfold deniedHit
    rw [hdl]
    exact List.any_eq_true.mpr ⟨p, hpd, hm⟩
  simp only [check_permission, hsess, htrust, htp, hdh]

/-- Claim C3 (witness): the repository test scenario with the identical
glob in both lists under posture always. -/
theorem c3_witness :
    check_permission denyAllowPermState noTtyEnv srvToolCall =
      (Except.ok false, denyAllowPermState) :=
  c3_claim denyAllowPermState noTtyEnv srvToolCall
    { allowed := some ["mcp__srv__*"], denied := some ["mcp__srv__*"], ask := none }
    "mcp__srv__*" ["mcp__srv__*"] ["mcp__srv__*"]
    (by rfl) (by decide) (by rfl) (by rfl) (by rfl)
    (by decide) (by decide) (by decide)

/-- Claim C5: a name in the session grant set is allowed regardless of the
current policy and default posture; no check ever removes a session
grant; and the remember-for-session prompt outcome inserts the name into
the grant set. -/
theorem c5_claim (st : PermState) (env : PromptEnv) (tc : ToolCall)
    (hsess : st.session_allowed.contains tc.name = true) :
    check_permission st env tc = (Except.ok true, st) ∧
      (∀ (st' : PermState) (env' : PromptEnv) (tc' : ToolCall),
        st'.session_allowed.contains tc.name = true →
        (check_permission st' env' tc').2.session_allowed.contains tc.name = true) ∧
      (∀ (st' : PermState) (env' : PromptEnv) (tc' : ToolCall),
        env'.is_stdout_terminal = true →
        env'.choice = some "Yes (for this session)" →
        (prompt_user st' env' tc').2.session_allowed.contains tc'.name = true) := by
  refine ⟨?_, ?_, ?_⟩
  · simp only [check_permission, hsess]
  · intro st' env' tc' h
    exact check_permission_mono h
  · intro st' env' tc' hterm hchoice
    simp only [prompt_user, hterm, hchoice]
    simp [List.contains, List.elem_cons]

/-- Claim C5 (witness): fs_read granted for the session stays allowed
under a global never posture. -/
theorem c5_witness :
    check_permission sessionPermState noTtyEnv fsReadToolCall =
      (Except.ok true, sessionPermState) :=
  (c5_claim sessionPermState noTtyEnv fsReadToolCall (by rfl)).1

/-- Claim C6: check_permission always resolves to an ok boolean, never an
error; and any evaluation that reaches an interactive-confirmation branch
(a matching ask pattern, or default posture Ask) with no terminal
attached resolves to a deny without prompting. -/
theorem c6_claim :
    (∀ (st : PermState) (env : PromptEnv) (tc : ToolCall),
        ∃ b, (check_permission st env tc).1 = Except.ok b) ∧
      (∀ (st : PermState) (env : PromptEnv) (tc : ToolCall),
        env.is_stdout_terminal = false →
        st.session_allowed.contains tc.name = false →
        trustedBypass st.mcp_servers tc.name = false →
        ((∃ tp, effectiveToolPerms st = some tp ∧ deniedHit tp tc.name = false ∧
            allowedHit tp tc.name = false ∧ askHit tp tc.name = true) ∨
          (noPatternApplies st tc.name ∧ defaultPermission st = PermissionLevel.Ask)) →
        check_permission st env tc = (Except.ok false, st)) := by
  constructor
  · intro st env tc
    unfold check_permission
    repeat' split
    all_goals first
      | exact ⟨true, rfl⟩
      | exact ⟨false, rfl⟩
      | exact prompt_user_isOk st env tc
      | exact applyDefault_isOk st env tc
  · intro st env tc hterm hsess htrust hcase
    have hprompt : prompt_user st env tc = (Except.ok false, st) := by
      simp only [prompt_user, hterm]
    rcases hcase with ⟨tp, htp, hd, ha, hask⟩ | ⟨hnp, hdef⟩
    · simp only [check_permission, hsess, htrust, htp, hd, ha, hask, hprompt]
    · cases he : effectiveToolPerms st with
      | none =>
        simp only [check_permission, hsess, htrust, he, applyDefault, hdef, hprompt]
      | some tp =>
        obtain ⟨hd, ha, hask⟩ := hnp tp he
        simp only [check_permission, hsess, htrust, he, hd, ha, hask,
          applyDefault, hdef, hprompt]

/-- Claim C6 (witness): posture ask with no terminal denies a plain call. -/
theorem c6_witness :
    check_permission askPermState noTtyEnv fsReadToolCall =
      (Except.ok false, askPermState) :=
  c6_claim.2 askPermState noTtyEnv fsReadToolCall (by rfl) (by rfl) (by rfl)
    (Or.inr ⟨fun tp h => Option.noConfusion h, by decide⟩)

/-- Claim C10: a configured posture string (role or global) that is not a
case-insensitive spelling of always, never or ask resolves to Ask — so
with no terminal attached the call is denied — rather than to the
backward-compatible Always used when no posture is configured. -/
theorem c10_claim :
    (∀ s : String, lowercase s ≠ "always" → lowercase s ≠ "never" →
        lowercase s ≠ "ask" → PermissionLevel.fromStr s = PermissionLevel.Ask) ∧
      (∀ (st : PermState) (env : PromptEnv) (tc : ToolCall) (s : String),
        lowercase s ≠ "always" → lowercase s ≠ "never" → lowercase s ≠ "ask" →
        (st.role_tool_call_permission = some s ∨
          (st.role_tool_call_permission = none ∧ st.tool_call_permission = some s)) →
        env.is_stdout_terminal = false →
        st.session_allowed.contains tc.name = false →
        trustedBypass st.mcp_servers tc.name = false →
        noPatternApplies st tc.name →
        check_permission st env tc = (Except.ok false, st)) := by
  have hfrom : ∀ s : String, lowercase s ≠ "always" → lowercase s ≠ "never" →
      lowercase s ≠ "ask" → PermissionLevel.fromStr s = PermissionLevel.Ask := by
    intro s h1 h2 h3
    unfold PermissionLevel.fromStr
    split
    next heq => exact absurd heq h1
    next heq => exact absurd heq h2
    next heq => exact absurd heq h3
    next => rfl
  refine ⟨hfrom, ?_⟩
  intro st env tc s h1 h2 h3 hrole hterm hsess htrust hnp
  have hdef : defaultPermission st = PermissionLevel.Ask := by
    unfold defaultPermission
    rcases hrole with hr | ⟨hr, hg⟩
    · rw [hr]
      exact hfrom s h1 h2 h3
    · rw [hr, hg]
      exact hfrom s h1 h2 h3
  have hprompt : prompt_user st env tc = (Except.ok false, st) := by
    simp only [prompt_user, hterm]
  cases he : effectiveToolPerms st with
  | none =>
    simp only [check_permission, hsess, htrust, he, applyDefault, hdef, hprompt]
  | some tp =>
    obtain ⟨hd, ha, hask⟩ := hnp tp he
    simp only [check_permission, hsess, htrust, he, hd, ha, hask,
      applyDefault, hdef, hprompt]

/-- Claim C10 (witness): the unrecognized posture string is treated as
Ask and denied without a terminal. -/
theorem c10_witness :
    check_permission garbagePermState noTtyEnv fsReadToolCall =
      (Except.ok false, garbagePermState) :=
  c10_claim.2 garbagePermState noTtyEnv fsReadToolCall "sometimes"
    (by decide) (by decide) (by decide) (Or.inr ⟨rfl, rfl⟩)
    (by rfl) (by rfl) (by rfl) (fun tp h => Option.noConfusion h)

/-- Claim C1 (counterexample): the identifier with an empty tool segment
is routed to provider a (its client is invoked with the empty tool name),
and the identifier with an empty provider segment fails with a
provider-not-found error for the empty name; neither produces the
malformed-name failure the claim requires. -/
theorem c1_counterexample :
    manager_call_tool [("a", blankClient "a")] "mcp__a__" JValue.null =
        DispatchResult.routed "a" "" JValue.null ∧
      manager_call_tool [] "mcp____b" JValue.null = DispatchResult.serverNotFound "" ∧
      DispatchResult.routed "a" "" JValue.null ≠ DispatchResult.malformedName "mcp__a__" ∧
      DispatchResult.serverNotFound "" ≠ DispatchResult.malformedName "mcp____b" :=
  ⟨rfl, rfl, fun h => DispatchResult.noConfusion h, fun h => DispatchResult.noConfusion h⟩

/-- Claim C1 (amended): dispatch of mcp__alpha__foo routes only to the
connection named alpha; mcp__onlyprefix (no second separator) fails as a
malformed name; mcp____b parses as the empty provider name and fails with
provider-not-found (contacting no provider) whenever no provider has the
empty name; and mcp__a__ parses as provider a with an empty tool name and
is routed to provider a when present. -/
theorem c1_claim (reg : Registry) (args : JValue) :
    ((∃ c, reg.find? (fun e => e.1 == "alpha") = some c) →
        manager_call_tool reg "mcp__alpha__foo" args =
          DispatchResult.routed "alpha" "foo" args) ∧
      (manager_call_tool reg "mcp__onlyprefix" args =
        DispatchResult.malformedName "mcp__onlyprefix") ∧
      (reg.find? (fun e => e.1 == "") = none →
        manager_call_tool reg "mcp____b" args = DispatchResult.serverNotFound "") ∧
      ((∃ c, reg.find? (fun e => e.1 == "a") = some c) →
        manager_call_tool reg "mcp__a__" args = DispatchResult.routed "a" "" args) := by
  refine ⟨?_, rfl, ?_, ?_⟩
  · rintro ⟨c, hc⟩
    have h0 : manager_call_tool reg "mcp__alpha__foo" args =
        match reg.find? (fun e => e.1 == "alpha") with
        | none => DispatchResult.serverNotFound "alpha"
        | some _ => DispatchResult.routed "alpha" "foo" args := rfl
    rw [h0, hc]
  · intro hn
    have h0 : manager_call_tool reg "mcp____b" args =
        match reg.find? (fun e => e.1 == "") with
        | none => DispatchResult.serverNotFound ""
        | some _ => DispatchResult.routed "" "b" args := rfl
    rw [h0, hn]
  · rintro ⟨c, hc⟩
    have h0 : manager_call_tool reg "mcp__a__" args =
        match reg.find? (fun e => e.1 == "a") with
        | none => DispatchResult.serverNotFound "a"
        | some _ => DispatchResult.routed "a" "" args := rfl
    rw [h0, hc]

/-- Claim C1 (witness): a registry holding alpha routes the namespaced
call to alpha and rejects the separator-free name as malformed. -/
theorem c1_witness :
    manager_call_tool [("alpha", blankClient "alpha")] "mcp__alpha__foo" JValue.null =
        DispatchResult.routed "alpha" "foo" JValue.null ∧
      manager_call_tool [("alpha", blankClient "alpha")] "mcp__onlyprefix" JValue.null =
        DispatchResult.malformedName "mcp__onlyprefix" :=
  ⟨(c1_claim [("alpha", blankClient "alpha")] JValue.null).1 ⟨("alpha", blankClient "alpha"), rfl⟩,
    (c1_claim [("alpha", blankClient "alpha")] JValue.null).2.1⟩

/-! ### Converter evaluation lemmas. -/

/-- propsResult when no properties object is present. -/
theorem propsResult_none {schema : JValue}
    (h : (jGet schema "properties").bind jAsObj = none) :
    propsResult schema = Except.ok none := by
  rw [propsResult.eq_def]
  split
  next fs hp => rw [h] at hp; exact Option.noConfusion hp
  next => rfl

/-- propsResult when a properties object is present. -/
theorem propsResult_some {schema : JValue} {fs : List (String × JValue)}
    (h : (jGet schema "properties").bind jAsObj = some fs) :
    propsResult schema = Except.map some (convertFields fs) := by
  rw [propsResult.eq_def]
  split
  next fs' hp =>
    rw [h] at hp
    cases hp
    rfl
  next hp => rw [h] at hp; exact Option.noConfusion hp

/-- itemsResult when no items field is present. -/
theorem itemsResult_none {schema : JValue} (h : jGet schema "items" = none) :
    itemsResult schema = Except.ok none := by
  rw [itemsResult.eq_def]
  split
  next it hi => rw [h] at hi; exact Option.noConfusion hi
  next => rfl

/-- itemsResult when an items field is present. -/
theorem itemsResult_some {schema : JValue} {it : JValue}
    (h : jGet schema "items" = some it) :
    itemsResult schema = Except.map some (convert_json_schema it) := by
  rw [itemsResult.eq_def]
  split
  next it' hi =>
    rw [h] at hi
    cases hi
    rfl
  next hi => rw [h] at hi; exact Option.noConfusion hi

/-- anyofResult when no anyOf array is present. -/
theorem anyofResult_none {schema : JValue}
    (h : (jGet schema "anyOf").bind jAsArr = none) :
    anyofResult schema = Except.ok none := by
  rw [anyofResult.eq_def]
  split
  next l ha => rw [h] at ha; exact Option.noConfusion ha
  next => rfl

/-- anyofResult when an anyOf array is present. -/
theorem anyofResult_some {schema : JValue} {l : List JValue}
    (h : (jGet schema "anyOf").bind jAsArr = some l) :
    anyofResult schema = Except.map some (convertList l) := by
  rw [anyofResult.eq_def]
  split
  next l' ha =>
    rw [h] at ha
    cases ha
    rfl
  next ha => rw [h] at ha; exact Option.noConfusion ha

/-- convert_json_schema when all three recursive steps succeed:
scalar fields are copied from the input, the required and enum lists keep
their string entries, every absent field stays unset. -/
theorem convert_ok_of {schema : JValue}
    {props : Option (List (String × JsonSchema))} {items : Option JsonSchema}
    {anys : Option (List JsonSchema)}
    (hp : propsResult schema = Except.ok props)
    (hi : itemsResult schema = Except.ok items)
    (ha : anyofResult schema = Except.ok anys) :
    convert_json_schema schema = Except.ok (JsonSchema.mk
      ((jGet schema "type").bind jAsStr)
      ((jGet schema "description").bind jAsStr)
      props items anys
      (((jGet schema "enum").bind jAsArr).map (fun l => l.filterMap jAsStr))
      (jGet schema "default")
      (((jGet schema "required").bind jAsArr).map (fun l => l.filterMap jAsStr))) := by
  rw [convert_json_schema.eq_def, hp, hi, ha]

/-- convertFields on the empty field list. -/
theorem convertFields_nil : convertFields [] = Except.ok [] := by
  rw [convertFields.eq_def]

/-- convertFields step when both the head conversion and the tail succeed. -/
theorem convertFields_cons_ok {k : String} {v : JValue}
    {fs : List (String × JValue)} {c : JsonSchema}
    {cs : List (String × JsonSchema)}
    (h1 : convert_json_schema v = Except.ok c)
    (h2 : convertFields fs = Except.ok cs) :
    convertFields ((k, v) :: fs) = Except.ok ((k, c) :: cs) := by
  rw [convertFields.eq_def]
  dsimp only
  rw [h1, h2]

/-- convertList on the empty list. -/
theorem convertList_nil : convertList [] = Except.ok [] := by
  rw [convertList.eq_def]

/-- convertList step when both the head conversion and the tail succeed. -/
theorem convertList_cons_ok {v : JValue} {vs : List JValue} {c : JsonSchema}
    {cs : List JsonSchema}
    (h1 : convert_json_schema v = Except.ok c)
    (h2 : convertList vs = Except.ok cs) :
    convertList (v :: vs) = Except.ok (c :: cs) := by
  rw [convertList.eq_def]
  dsimp only
  rw [h1, h2]

/-- Pointwise success of the entries implies success of the field loop. -/
theorem convertFields_ok (fs : List (String × JValue))
    (h : ∀ kv ∈ fs, ∃ s, convert_json_schema kv.2 = Except.ok s) :
    ∃ cs, convertFields fs = Except.ok cs := by
  induction fs with
  | nil => exact ⟨[], convertFields_nil⟩
  | cons kv fs ihl =>
    obtain ⟨c, hc⟩ := h kv (List.mem_cons_self kv fs)
    obtain ⟨cs, hcs⟩ := ihl (fun kv' h' => h kv' (List.mem_cons_of_mem kv h'))
    cases kv with
    | mk k v => exact ⟨(k, c) :: cs, convertFields_cons_ok hc hcs⟩

/-- Pointwise success of the elements implies success of the anyOf loop. -/
theorem convertList_ok (l : List JValue)
    (h : ∀ v ∈ l, ∃ s, convert_json_schema v = Except.ok s) :
    ∃ cs, convertList l = Except.ok cs := by
  induction l with
  | nil => exact ⟨[], convertList_nil⟩
  | cons v vs ihl =>
    obtain ⟨c, hc⟩ := h v (List.mem_cons_self v vs)
    obtain ⟨cs, hcs⟩ := ihl (fun v' h' => h v' (List.mem_cons_of_mem v h'))
    exact ⟨c :: cs, convertList_cons_ok hc hcs⟩

/-- Conversion succeeds on every value of bounded size. -/
theorem convert_isOk_le :
    ∀ (n : Nat) (v : JValue), sizeOf v ≤ n →
      ∃ s, convert_json_schema v = Except.ok s := by
  intro n
  induction n with
  | zero =>
    intro v hv
    cases v <;> simp at hv
  | succ n ih =>
    intro v hv
    have hps : ∃ props, propsResult v = Except.ok props := by
      cases hobj : (jGet v "properties").bind jAsObj with
      | none => exact ⟨none, propsResult_none hobj⟩
      | some fs =>
        have hsz : sizeOf fs < sizeOf v := sizeOf_of_jGet_obj hobj
        obtain ⟨cs, hcs⟩ := convertFields_ok fs (fun kv hkv => by
          apply ih
          have h1 : sizeOf kv < sizeOf fs := List.sizeOf_lt_of_mem hkv
          have h2 : sizeOf kv.2 < sizeOf kv := by
            cases kv with
            | mk a b => simp
          omega)
        exact ⟨some cs, by rw [propsResult_some hobj, hcs]; rfl⟩
    have his : ∃ items, itemsResult v = Except.ok items := by
      cases hit : jGet v "items" with
      | none => exact ⟨none, itemsResult_none hit⟩
      | some it =>
        have hsz : sizeOf it < sizeOf v := sizeOf_of_jGet hit
        obtain ⟨s, hs⟩ := ih it (by omega)
        exact ⟨some s, by rw [itemsResult_some hit, hs]; rfl⟩
    have has : ∃ anys, anyofResult v = Except.ok anys := by
      cases harr : (jGet v "anyOf").bind jAsArr with
      | none => exact ⟨none, anyofResult_none harr⟩
      | some l =>
        have hsz : sizeOf l < sizeOf v := sizeOf_of_jGet_arr harr
        obtain ⟨cs, hcs⟩ := convertList_ok l (fun w hw => by
          apply ih
          have h1 : sizeOf w < sizeOf l := List.sizeOf_lt_of_mem hw
          omega)
        exact ⟨some cs, by rw [anyofResult_some harr, hcs]; rfl⟩
    obtain ⟨props, hps⟩ := hps
    obtain ⟨items, his⟩ := his
    obtain ⟨anys, has⟩ := has
    exact ⟨_, convert_ok_of hps his has⟩

/-- Conversion never fails: the Result in the Rust signature is vestigial. -/
theorem convert_total (v : JValue) : ∃ s, convert_json_schema v = Except.ok s :=
  convert_isOk_le (sizeOf v) v (Nat.le_refl _)

/-- The items-nested schema of depth n converts successfully to an output
of items depth exactly n: the recursion runs to the full input depth. -/
theorem nested_convert (n : Nat) :
    ∃ s, convert_json_schema (nestedSchema n) = Except.ok s ∧ itemsDepth s = n := by
  induction n with
  | zero =>
    exact ⟨_, @convert_ok_of (nestedSchema 0) none none none
      (propsResult_none rfl) (itemsResult_none rfl) (anyofResult_none rfl), rfl⟩
  | succ n ihn =>
    obtain ⟨s, hs, hd⟩ := ihn
    have hit : jGet (nestedSchema (n + 1)) "items" = some (nestedSchema n) := rfl
    have hi2 : itemsResult (nestedSchema (n + 1)) = Except.ok (some s) := by
      rw [itemsResult_some hit, hs]
      rfl
    refine ⟨_, @convert_ok_of (nestedSchema (n + 1)) none (some s) none
      (propsResult_none rfl) hi2 (anyofResult_none rfl), ?_⟩
    simp only [itemsDepth]
    rw [hd]

/-- Registered capabilities plus skipped tools account for the whole
catalogue. -/
theorem length_filterMap_add {α β : Type} (f : α → Option β) (l : List α) :
    (l.filterMap f).length + (l.filter (fun a => (f a).isNone)).length = l.length := by
  induction l with
  | nil => rfl
  | cons a l ihl =>
    cases hfa : f a <;>
      simp [List.filterMap_cons, List.filter_cons, hfa] <;> omega

/-- Tool conversion never fails (schema conversion is total). -/
theorem mcp_tool_to_function_ok (sn tn td : String) (is : JValue) :
    ∃ fd, mcp_tool_to_function sn tn td is = Except.ok fd := by
  obtain ⟨s, hs⟩ := convert_total is
  refine ⟨⟨"mcp__" ++ sn ++ "__" ++ tn, td, s, false⟩, ?_⟩
  unfold mcp_tool_to_function
  rw [hs]

/-- Claim C7: with transport and handshake up and a catalogue of tools,
connect() succeeds, registers exactly the successfully converted tools in
catalogue order, and the number registered is the catalogue size minus
the number of tools whose conversion fails; moreover in this code schema
conversion is total, so no tool is ever skipped. -/
theorem c7_claim (st : ClientState) (env : ConnectEnv)
    (tools : List McpToolInfo)
    (hconn : st.connected = false)
    (htr : env.transport = Except.ok ())
    (hhs : env.handshake = Except.ok ())
    (hlt : env.list_tools = Except.ok tools) :
    McpClient.connect st env = Except.ok
      { st with
        connected := true
        tools := tools.filterMap (fun t =>
          (mcp_tool_to_function st.name t.name (t.description.getD "") t.input_schema).toOption) } ∧
      (tools.filterMap (fun t =>
          (mcp_tool_to_function st.name t.name (t.description.getD "") t.input_schema).toOption)).length =
        tools.length - (tools.filter (fun t =>
          (mcp_tool_to_function st.name t.name (t.description.getD "") t.input_schema).toOption.isNone)).length ∧
      ∀ t ∈ tools,
        (mcp_tool_to_function st.name t.name (t.description.getD "") t.input_schema).toOption.isNone = false := by
  refine ⟨?_, ?_, ?_⟩
  · simp only [McpClient.connect, hconn, htr, hhs, hlt]
  · have h := length_filterMap_add (fun t =>
      (mcp_tool_to_function st.name t.name (t.description.getD "") t.input_schema).toOption) tools
    omega
  · intro t ht
    obtain ⟨fd, hfd⟩ := mcp_tool_to_function_ok st.name t.name (t.description.getD "") t.input_schema
    rw [hfd]
    rfl

/-- Claim C7 (witness): a successful connect over the two-tool catalogue
registers exactly the converted tools and marks the client connected. -/
theorem c7_witness :
    McpClient.connect testClientState testConnectEnv = Except.ok
      { testClientState with
        connected := true
        tools := testCatalogue.filterMap (fun t =>
          (mcp_tool_to_function testClientState.name t.name
            (t.description.getD "") t.input_schema).toOption) } :=
  (c7_claim testClientState testConnectEnv testCatalogue rfl rfl rfl rfl).1

/-- Claim C9 (counterexample): a schema nested one thousand levels deep
converts successfully, and its output nests equally deep: no depth
ceiling interrupts the recursion. -/
theorem c9_counterexample :
    (convert_json_schema (nestedSchema 1000)).toOption.isSome = true ∧
      itemsDepth (convertUnwrap (nestedSchema 1000)) = 1000 := by
  obtain ⟨s, hs, hd⟩ := nested_convert 1000
  refine ⟨?_, ?_⟩
  · rw [hs]
    rfl
  · unfold convertUnwrap
    rw [hs]
    exact hd

/-- Claim C9 (amended): conversion terminates and succeeds on every
(acyclic) input value — the recursion is bounded by the input's own
structural depth — but no explicit depth ceiling is enforced: for every
n, the depth-n nested schema converts to an output of items depth
exactly n. -/
theorem c9_claim :
    (∀ v : JValue, ∃ s, convert_json_schema v = Except.ok s) ∧
      (∀ n : Nat, ∃ s, convert_json_schema (nestedSchema n) = Except.ok s ∧
        itemsDepth s = n) :=
  ⟨convert_total, nested_convert⟩

/-- Inversion of a successful conversion into its components. -/
theorem convert_ok_inv {v : JValue} {s : JsonSchema}
    (h : convert_json_schema v = Except.ok s) :
    propsResult v = Except.ok s.properties ∧
      itemsResult v = Except.ok s.items ∧
      anyofResult v = Except.ok s.any_of ∧
      s.type_value = (jGet v "type").bind jAsStr ∧
      s.description = (jGet v "description").bind jAsStr ∧
      s.enum_value = ((jGet v "enum").bind jAsArr).map (fun l => l.filterMap jAsStr) ∧
      s.default = jGet v "default" ∧
      s.required = ((jGet v "required").bind jAsArr).map (fun l => l.filterMap jAsStr) := by
  rw [convert_json_schema.eq_def] at h
  split at h
  · cases h
    exact ⟨by assumption, by assumption, by assumption, rfl, rfl, rfl, rfl, rfl⟩
  · exact Except.noConfusion h
  · exact Except.noConfusion h
  · exact Except.noConfusion h

/-- A successful field loop converts the entries pointwise, in order,
keeping each key. -/
theorem convertFields_forall {fs : List (String × JValue)}
    {cs : List (String × JsonSchema)} (h : convertFields fs = Except.ok cs) :
    List.Forall₂ (fun kv c => c.1 = kv.1 ∧
      convert_json_schema kv.2 = Except.ok c.2) fs cs := by
  induction fs generalizing cs with
  | nil =>
    rw [convertFields_nil] at h
    cases h
    exact List.Forall₂.nil
  | cons kv fs ihl =>
    cases kv with
    | mk k v =>
      rw [convertFields.eq_def] at h
      dsimp only at h
      split at h
      · exact Except.noConfusion h
      next c hc =>
        split at h
        · exact Except.noConfusion h
        next rest hrest =>
          cases h
          exact List.Forall₂.cons ⟨rfl, hc⟩ (ihl hrest)

/-- A successful anyOf loop converts the alternatives pointwise, in
order. -/
theorem convertList_forall {l : List JValue} {cs : List JsonSchema}
    (h : convertList l = Except.ok cs) :
    List.Forall₂ (fun w c => convert_json_schema w = Except.ok c) l cs := by
  induction l generalizing cs with
  | nil =>
    rw [convertList_nil] at h
    cases h
    exact List.Forall₂.nil
  | cons v vs ihl =>
    rw [convertList.eq_def] at h
    dsimp only at h
    split at h
    · exact Except.noConfusion h
    next c hc =>
      split at h
      · exact Except.noConfusion h
      next rest hrest =>
        cases h
        exact List.Forall₂.cons hc (ihl hrest)

/-- Keeping the string entries of an all-string list is the identity. -/
theorem filterMap_jAsStr_map_str (strs : List String) :
    (strs.map JValue.str).filterMap jAsStr = strs := by
  induction strs with
  | nil => rfl
  | cons a l ihl => simp [List.filterMap_cons, jAsStr, ihl]

/-- Claim C8 (counterexample): a non-string enum entry is silently
dropped rather than carried over exactly: the input enum holds one value
and the output enum list is empty. -/
theorem c8_counterexample :
    jGet enumDropSchema "enum" = some (JValue.arr [JValue.num 1]) ∧
      (convertUnwrap enumDropSchema).enum_value = some [] := by
  constructor
  · rfl
  · have h := @convert_ok_of enumDropSchema none none none
      (propsResult_none rfl) (itemsResult_none rfl) (anyofResult_none rfl)
    unfold convertUnwrap
    rw [h]
    rfl

/-- Claim C8 (amended): conversion copies type, description and default
exactly, keeps required and enum lists exactly when all their entries are
strings (non-string entries are dropped), converts properties and anyOf
alternatives pointwise preserving insertion order and keys, converts a
present items value recursively, and maps every absent field to unset. -/
theorem c8_claim (v : JValue) (s : JsonSchema)
    (hconv : convert_json_schema v = Except.ok s) :
    s.type_value = (jGet v "type").bind jAsStr ∧
      s.description = (jGet v "description").bind jAsStr ∧
      s.default = jGet v "default" ∧
      (∀ strs : List String,
        (jGet v "required").bind jAsArr = some (strs.map JValue.str) →
        s.required = some strs) ∧
      ((jGet v "required").bind jAsArr = none → s.required = none) ∧
      (∀ strs : List String,
        (jGet v "enum").bind jAsArr = some (strs.map JValue.str) →
        s.enum_value = some strs) ∧
      ((jGet v "enum").bind jAsArr = none → s.enum_value = none) ∧
      (∀ fs, (jGet v "properties").bind jAsObj = some fs →
        ∃ cs, s.properties = some cs ∧
          List.Forall₂ (fun kv c => c.1 = kv.1 ∧
            convert_json_schema kv.2 = Except.ok c.2) fs cs) ∧
      ((jGet v "properties").bind jAsObj = none → s.properties = none) ∧
      (∀ l, (jGet v "anyOf").bind jAsArr = some l →
        ∃ cs, s.any_of = some cs ∧
          List.Forall₂ (fun w c => convert_json_schema w = Except.ok c) l cs) ∧
      ((jGet v "anyOf").bind jAsArr = none → s.any_of = none) ∧
      (∀ it, jGet v "items" = some it →
        ∃ c, s.items = some c ∧ convert_json_schema it = Except.ok c) ∧
      (jGet v "items" = none → s.items = none) := by
  obtain ⟨hp, hi, ha, ht, hd, he, hdef, hr⟩ := convert_ok_inv hconv
  refine ⟨ht, hd, hdef, ?_, ?_, ?_, ?_, ?_, ?_, ?_, ?_, ?_, ?_⟩
  · intro strs hstrs
    rw [hr, hstrs, Option.map_some', filterMap_jAsStr_map_str]
  · intro hnone
    rw [hr, hnone]
    rfl
  · intro strs hstrs
    rw [he, hstrs, Option.map_some', filterMap_jAsStr_map_str]
  · intro hnone
    rw [he, hnone]
    rfl
  · intro fs hfs
    rw [propsResult_some hfs] at hp
    cases hcf : convertFields fs with
    | error e =>
      rw [hcf] at hp
      exact Except.noConfusion hp
    | ok cs =>
      rw [hcf] at hp
      simp only [Except.map] at hp
      injection hp with hp2
      exact ⟨cs, hp2.symm, convertFields_forall hcf⟩
  · intro hnone
    rw [propsResult_none hnone] at hp
    injection hp with hp2
    exact hp2.symm
  · intro l hl
    rw [anyofResult_some hl] at ha
    cases hcl : convertList l with
    | error e =>
      rw [hcl] at ha
      exact Except.noConfusion ha
    | ok cs =>
      rw [hcl] at ha
      simp only [Except.map] at ha
      injection ha with ha2
      exact ⟨cs, ha2.symm, convertList_forall hcl⟩
  · intro hnone
    rw [anyofResult_none hnone] at ha
    injection ha with ha2
    exact ha2.symm
  · intro it hit
    rw [itemsResult_some hit] at hi
    cases hci : convert_json_schema it with
    | error e =>
      rw [hci] at hi
      exact Except.noConfusion hi
    | ok c =>
      rw [hci] at hi
      simp only [Except.map] at hi
      injection hi with hi2
      exact ⟨c, hi2.symm, rfl⟩
  · intro hnone
    rw [itemsResult_none hnone] at hi
    injection hi with hi2
    exact hi2.symm

/-- Claim C8 (witness): the spec round-trip example, checked at the
top-level schema and at its two properties. -/
theorem c8_witness :
    (convertUnwrap roundTripSchema).required = some ["mode"] ∧
      (convertUnwrap roundTripSchema).items = none ∧
      (convertUnwrap roundTripSchema).default = none ∧
      (convertUnwrap modeSchema).enum_value = some ["a", "b"] ∧
      (convertUnwrap modeSchema).default = some (JValue.str "a") ∧
      ((convertUnwrap valueSchema).any_of.getD []).length = 2 := by
  obtain ⟨s1, hs1⟩ := convert_total roundTripSchema
  obtain ⟨s2, hs2⟩ := convert_total modeSchema
  obtain ⟨s3, hs3⟩ := convert_total valueSchema
  obtain ⟨ht1, hd1, hdef1, hreq1, hreqN1, henum1, henumN1, hprops1, hpropsN1,
    hany1, hanyN1, hit1, hitN1⟩ := c8_claim roundTripSchema s1 hs1
  obtain ⟨ht2, hd2, hdef2, hreq2, hreqN2, henum2, henumN2, hprops2, hpropsN2,
    hany2, hanyN2, hit2, hitN2⟩ := c8_claim modeSchema s2 hs2
  obtain ⟨ht3, hd3, hdef3, hreq3, hreqN3, henum3, henumN3, hprops3, hpropsN3,
    hany3, hanyN3, hit3, hitN3⟩ := c8_claim valueSchema s3 hs3
  have e1 : convertUnwrap roundTripSchema = s1 := by
    unfold convertUnwrap
    rw [hs1]
    rfl
  have e2 : convertUnwrap modeSchema = s2 := by
    unfold convertUnwrap
    rw [hs2]
    rfl
  have e3 : convertUnwrap valueSchema = s3 := by
    unfold convertUnwrap
    rw [hs3]
    rfl
  refine ⟨?_, ?_, ?_, ?_, ?_, ?_⟩
  · rw [e1]
    exact hreq1 ["mode"] rfl
  · rw [e1]
    exact hitN1 rfl
  · rw [e1, hdef1]
    rfl
  · rw [e2]
    exact henum2 ["a", "b"] rfl
  · rw [e2, hdef2]
    rfl
  · rw [e3]
    obtain ⟨cs, hcs, hf⟩ := hany3
      [JValue.obj [("type", JValue.str "string")],
       JValue.obj [("type", JValue.str "number")]] rfl
    rw [hcs]
    have hlen := List.Forall₂.length_eq hf
    simpa using hlen.symm

/-! ### Sanity checks mirroring the repository's own unit tests
(permission.rs tests, mod.rs tests) and the dispatch examples. -/

example : matches_pattern "fs_read" "fs_read" = true := by decide
example : matches_pattern "fs_read" "fs_*" = true := by decide
example : matches_pattern "mcp__server__tool" "mcp__*" = true := by decide
example : matches_pattern "foo.bar" "foo.*" = true := by decide
example : matches_pattern "fooXbar" "foo.*" = false := by decide
example : matches_pattern "a[b]c" "a[b]c" = true := by decide
example : matches_pattern "anything" "***" = true := by decide
example : matches_pattern "" "*" = true := by decide
example : matches_pattern "mcp__srv__tool" "mcp__srv__*" = true := by decide
example : extract_server_name "mcp__filesystem__read_file" = some "filesystem" := by decide
example : extract_server_name "fs_cat" = none := by decide
example : extract_server_name "mcp__" = none := by decide
example : extract_server_name "mcp____tool" = none := by decide
example : extract_server_name "mcp__server__" = none := by decide
example : extract_server_name "mcp__my_server__tool_name" = some "my_server" := by decide
example : manager_call_tool [] "mcp__onlyprefix" JValue.null =
    DispatchResult.malformedName "mcp__onlyprefix" := by rfl
example : manager_call_tool [("alpha", blankClient "alpha")] "mcp__alpha__foo" JValue.null =
    DispatchResult.routed "alpha" "foo" JValue.null := by rfl
example : lowercase "NeVeR" = "never" := by decide
example : PermissionLevel.fromStr "never" = PermissionLevel.Never := by decide
example : PermissionLevel.fromStr "sometimes" = PermissionLevel.Ask := by decide

end Fiochat
